import Mathlib

/-!
Shallow embedding of `npm-packages/meteor-vite/src/meteor/package/Parser.ts`:
the Meteor bundle metadata extractor.  Babel AST nodes are modelled by the
inductive `Node` (only the node kinds and fields the parser inspects);
JavaScript exceptions are modelled by `Except`:
`ParseError.moduleExportsError` is the `ModuleExportsError` class (carrying
the offending node), and `ParseError.jsTypeError` stands for the runtime
`TypeError` raised by the source's unchecked field accesses
(e.g. `undefined.properties`).
-/

/-- Babel AST node kinds inspected by the parser.  `other` stands for any
node kind the parser never matches on (plumbing statements, etc.). -/
inductive Node where
  | identifier (name : String)
  | stringLiteral (value : String)
  | numericLiteral (value : Nat)
  | objectExpression (properties : List Node)
  | objectProperty (key : Node) (value : Node)
  | objectMethod (key : Node)
  | spreadElement
  | memberExpression (object : Node) (property : Node)
  | callExpression (callee : Node) (arguments : List Node)
  | functionExpression (body : List Node)
  | expressionStatement (expression : Node)
  | unaryExpression (operator : String) (argument : Node)
  | variableDeclarator (id : Node) (init : Option Node)
  | program (body : List Node)
  | other
deriving Repr

/-- The `type` tag of a `ModuleExport` record:
`'export' | 're-export' | 'global-binding' | 'export-default'`. -/
inductive ExportType where
  | namedExport
  | reExport
  | globalBinding
  | exportDefault
deriving Repr, DecidableEq

/-- One extracted export record (`ModuleExport` in the source). -/
structure ModuleExport where
  name : String
  type : ExportType
  id : Option Nat := none
  «from» : Option String := none
  as : Option String := none
deriving Repr, DecidableEq

/-- Errors raised during extraction.  `moduleExportsError` is the source's
`ModuleExportsError(message, node)`; `jsTypeError` models the JavaScript
`TypeError` thrown by an unchecked access on `undefined`. -/
inductive ParseError where
  | moduleExportsError (message : String) (node : Node)
  | jsTypeError
deriving Repr

/-- `ModuleList`: insertion-ordered string-keyed record of export lists. -/
abbrev ModuleList := List (String × List ModuleExport)

/-- `PackageScopeExports`: insertion-ordered record of export-name lists. -/
abbrev PackageScopeExports := List (String × List String)

/-- JavaScript object-assignment semantics for a string-keyed record:
updating an existing key keeps its position, a fresh key is appended. -/
def setAssoc {α : Type} (m : List (String × α)) (k : String) (v : α) :
    List (String × α) :=
  if m.any (fun p => p.1 = k) then
    m.map (fun p => if p.1 = k then (k, v) else p)
  else
    m ++ [(k, v)]

/-- `propParser.getKey(property)`: key of an object property.  An
`ObjectProperty`/`ObjectMethod` key that is neither an identifier nor a
string literal raises `ModuleExportsError`; any other node kind has no
`key` field, so the source's `property.key.type` access raises a
`TypeError`. -/
def getKey : Node → Except ParseError String
  | .objectProperty (.identifier n) _ => pure n
  | .objectProperty (.stringLiteral v) _ => pure v
  | .objectProperty k v =>
      throw (.moduleExportsError "Unsupported property key type!" (.objectProperty k v))
  | .objectMethod (.identifier n) => pure n
  | .objectMethod (.stringLiteral v) => pure v
  | .objectMethod k =>
      throw (.moduleExportsError "Unsupported property key type!" (.objectMethod k))
  | _ => throw .jsTypeError

/-- The per-property body of `formatExports`: builds one record, starting as
a named export (with `id` when a link id was supplied), retagging to
re-export when a link source module (`packageName`) was supplied, then to
global-binding when the property is an `ObjectMethod`; a re-export property
value must be a string literal, and it populates `as` only when it differs
from the key. -/
def formatExport (packageName : Option String) (id : Option Nat) (property : Node) :
    Except ParseError ModuleExport := do
  if let .spreadElement := property then
    throw (.moduleExportsError "Unexpected property type!" .spreadElement)
  let name ← getKey property
  let result : ModuleExport := { name := name, type := .namedExport, id := id }
  let result :=
    match packageName with
    | some pn => { result with type := .reExport, «from» := some pn }
    | none => result
  let result :=
    match property with
    | .objectMethod _ =>
        if result.type = .reExport then { result with type := .globalBinding } else result
    | _ => result
  match property with
  | .objectProperty _ content =>
      if result.type = .reExport then
        match content with
        | .stringLiteral v =>
            if v ≠ result.name then pure { result with as := some v } else pure result
        | _ =>
            throw (.moduleExportsError "Received unsupported result type in re-export!" property)
      else
        pure result
  | _ => pure result

/-- `formatExports({ expression, packageName, id })` mapped over the
expression's properties. -/
def formatExports (properties : List Node) (packageName : Option String)
    (id : Option Nat) : Except ParseError (List ModuleExport) :=
  properties.mapM (formatExport packageName id)

/-- The `/^module\d*$/` test on the callee object's identifier name:
the name is `module` followed by zero or more decimal digits.  Stated on
the character list so that it evaluates by kernel reduction. -/
def matchModuleName (s : String) : Bool :=
  s.data.take 6 = "module".data && (s.data.drop 6).all Char.isDigit

/-- The non-recursive part of `readModuleExports`: a call expression's
callee and arguments, dispatching on `export` / `exportDefault` / `link`. -/
def readModuleCall (callee : Node) (args : List Node) :
    Except ParseError (Option (List ModuleExport)) :=
  match callee with
  | .memberExpression (.identifier objName) calleeProp =>
      if !matchModuleName objName then pure none
      else
        match calleeProp with
        | .identifier methodName =>
            if methodName = "exportDefault" then
              match args.head? with
              | none => throw .jsTypeError
              | some (.identifier n) =>
                  pure (some [{ name := n, type := .exportDefault }])
              | some a =>
                  throw (.moduleExportsError "Unexpected default export value!" a)
            else if methodName = "export" then
              match args.head? with
              | none => throw .jsTypeError
              | some (.objectExpression props) => do
                  let l ← formatExports props none none
                  pure (some l)
              | some _ =>
                  -- the source passes the ambient `exports` object as the
                  -- error node here; modelled as `Node.other`
                  throw (.moduleExportsError "Unexpected export type!" .other)
            else if methodName ≠ "link" then pure none
            else
              match args.head? with
              | none => throw .jsTypeError
              | some a0 =>
                  match a0 with
                  | .stringLiteral pn =>
                      match args.get? 1 with
                      | none => throw .jsTypeError
                      | some (.objectExpression props) =>
                          match args.get? 2 with
                          | none => throw .jsTypeError
                          | some (.numericLiteral idv) => do
                              let l ← formatExports props (some pn) (some idv)
                              pure (some l)
                          | some _ =>
                              throw (.moduleExportsError
                                "Expected NumericLiteral as the last argument in module.link()!" a0)
                      | some _ =>
                          throw (.moduleExportsError
                            "Expected ObjectExpression as the second argument in module.link()!" a0)
                  | _ =>
                      throw (.moduleExportsError
                        "Expected string as the first argument in module.link()!" a0)
        | _ => pure none
  | _ => pure none

mutual

/-- `readModuleExports(node)`: recognizes one statement of a module body.
Returns `none` for irrelevant statements; a unary-expression statement is
handed to `handleMainModule`. -/
def readModuleExports (node : Node) : Except ParseError (Option (List ModuleExport)) :=
  match node with
  | .expressionStatement expr =>
      match expr with
      | .unaryExpression op arg => handleMainModule (.unaryExpression op arg)
      | .callExpression callee args => readModuleCall callee args
      | _ => pure none
  | _ => pure none
termination_by structural node

/-- `handleMainModule({ expression })`: the negated-IIFE main-module
wrapper: `!(function(){ ... }).call(...)`.  Runs `readModuleExports` over
every statement of the wrapped function body and concatenates the
results in source order. -/
def handleMainModule (expression : Node) : Except ParseError (Option (List ModuleExport)) :=
  match expression with
  | .unaryExpression op arg =>
      if op ≠ "!" then pure none
      else
        match arg with
        | .callExpression callee _ =>
            match callee with
            | .memberExpression obj _ =>
                match obj with
                | .functionExpression body => do
                    let l ← collectModuleExports body
                    pure (some l)
                | _ => pure none
            | _ => pure none
        | _ => pure none
  | _ => pure none
termination_by structural expression

/-- The `forEach` accumulation over a statement list: statements yielding
no exports are skipped, the rest are concatenated in source order. -/
def collectModuleExports (stmts : List Node) : Except ParseError (List ModuleExport) :=
  match stmts with
  | [] => pure []
  | s :: rest => do
      let e ← readModuleExports s
      let restExports ← collectModuleExports rest
      match e with
      | none => pure restExports
      | some l => pure (l ++ restExports)
termination_by structural stmts

end

/-- `readMainModulePath(node)`: a variable declarator binding the
identifier `exports` to `require(<string literal>)`.  Never throws. -/
def readMainModulePath : Node → Option String
  | .variableDeclarator (.identifier "exports")
      (some (.callExpression (.identifier "require") (a0 :: _))) =>
      match a0 with
      | .stringLiteral v => some v
      | _ => none
  | _ => none

/-- The `forEach` over the `_define` package-scope exports object: spread
elements are rejected, every other property contributes its key. -/
def packageScopeKeys : List Node → Except ParseError (List String)
  | [] => pure []
  | .spreadElement :: _ =>
      throw (.moduleExportsError
        "Unexpected property type received for package-scope exports!" .spreadElement)
  | p :: rest => do
      let k ← getKey p
      let ks ← packageScopeKeys rest
      pure (k :: ks)

/-- `parsePackageScope(node)`: matches `Package._define(...)`.  The
package-scope exports argument is `arguments[2]`, falling back to
`arguments[1]` when `arguments[2]` is absent and `arguments[1]` is an
object literal (legacy core packages without a module system). -/
def parsePackageScope (node : Node) : Except ParseError (Option (String × List String)) :=
  match node with
  | .callExpression (.memberExpression (.identifier "Package") (.identifier "_define")) args =>
      let packageExports? : Option Node :=
        match args.get? 2 with
        | some pe => some pe
        | none =>
            match args.get? 1 with
            | some (.objectExpression ps) => some (.objectExpression ps)
            | _ => none
      match packageExports? with
      | none => pure none
      | some (.objectExpression props) =>
          match args.get? 0 with
          | some (.stringLiteral pname) => do
              let ks ← packageScopeKeys props
              pure (some (pname, ks))
          | some badName =>
              throw (.moduleExportsError "Unexpected type received for package name!" badName)
          | none =>
              -- unreachable: `arguments[2]` (or `arguments[1]`) being present
              -- entails `arguments[0]` being present
              pure none
      | some pe =>
          throw (.moduleExportsError
            "Unexpected type received for package-scope exports argument!" pe)
  | _ => pure none

/-- `property.key.value.toString()` in `traverseModules`: a string-literal
key yields its value, a numeric key its decimal digits; any other key has
no `value` field, so `undefined.toString()` raises a `TypeError`. -/
def keyToString : Node → Option String
  | .stringLiteral v => some v
  | .numericLiteral n => some (toString n)
  | _ => none

/-- `packageName.key.value` when the installer's package name is read.
A key with no `value` field yields `undefined`; the program only ever
tests the resulting name for truthiness, so `undefined` is modelled by
the (equally falsy) empty string, as is the falsy numeric key `0`. -/
def keyNameValue : Node → String
  | .stringLiteral v => v
  | .numericLiteral n => if n = 0 then "" else toString n
  | _ => ""

mutual

/-- The inner `traverseModules(properties, parentPath)` closure of
`parseMeteorInstall`, with the `modules` accumulator threaded explicitly. -/
def traverseModules (modules : ModuleList) (properties : List Node) (parentPath : String) :
    Except ParseError ModuleList :=
  match properties with
  | [] => pure modules
  | p :: rest => do
      let modules ← traverseModule modules p parentPath
      traverseModules modules rest parentPath
termination_by structural properties

/-- One iteration of the `traverseModules` loop: an object-literal value
recurses with `path + "/"` as the new prefix; any other value is a leaf
whose entry is created at `path` and filled from the function body (a
non-function leaf value has no `body`, raising a `TypeError`). -/
def traverseModule (modules : ModuleList) (property : Node) (parentPath : String) :
    Except ParseError ModuleList :=
  match property with
  | .objectProperty key value =>
      match keyToString key with
      | none => throw .jsTypeError
      | some ks =>
          let path := parentPath ++ ks
          match value with
          | .objectExpression props => traverseModules modules props (path ++ "/")
          | .functionExpression body => do
              let exportList ← collectModuleExports body
              pure (setAssoc modules path exportList)
          | _ => throw .jsTypeError
  | _ => throw .jsTypeError
termination_by structural property

end

/-- `parseMeteorInstall(node)`: matches `meteorInstall(...)` and descends
the fixed `node_modules` / `meteor` / `<package name>` prefix of its first
argument (only `properties[0]` is read at each level; the source performs
these accesses unchecked, so any shape deviation raises a `TypeError`).
Returns the package name together with the freshly built module list. -/
def parseMeteorInstall (node : Node) : Except ParseError (Option (String × ModuleList)) :=
  match node with
  | .callExpression (.identifier "meteorInstall") args =>
      match args.head? with
      | some (.objectExpression (node_modules :: _)) =>
          match node_modules with
          | .objectProperty _ (.objectExpression (meteor :: _)) =>
              match meteor with
              | .objectProperty _ (.objectExpression (packageName :: _)) =>
                  match packageName with
                  | .objectProperty pkgKey (.objectExpression packageModules) => do
                      let modules ← traverseModules [] packageModules ""
                      pure (some (keyNameValue pkgKey, modules))
                  | _ => throw .jsTypeError
              | _ => throw .jsTypeError
          | _ => throw .jsTypeError
      | _ => throw .jsTypeError
  | _ => pure none

/-- The accumulator built during traversal (`ParsedPackage` in the
source); `modules` and `packageScopeExports` are insertion-ordered
records. -/
structure ParsedPackage where
  name : String
  modules : ModuleList
  packageScopeExports : PackageScopeExports
  mainModulePath : String
deriving Repr, DecidableEq

/-- The accumulator `result` as initialized in `parseSource`. -/
def initialResult : ParsedPackage :=
  { name := "", modules := [], packageScopeExports := [], mainModulePath := "" }

/-- The `enter(node)` visitor body of `parseSource`: run both call
recognizers (either may throw), then apply the main-module-path,
installer and package-scope updates in the source's order.  A falsy
(empty) new main-module path keeps the previous one; an installer match
overwrites `name` and `modules` wholesale; a package-scope match sets
`name` only when it is still empty and writes its export list under its
package name. -/
def enterNode (result : ParsedPackage) (node : Node) : Except ParseError ParsedPackage := do
  let packageScope ← parsePackageScope node
  let meteorInstall ← parseMeteorInstall node
  let result :=
    match readMainModulePath node with
    | some p => if p = "" then result else { result with mainModulePath := p }
    | none => result
  let result :=
    match meteorInstall with
    | some (nm, mods) => { result with name := nm, modules := mods }
    | none => result
  let result :=
    match packageScope with
    | some (nm, exps) =>
        { result with
          name := if result.name = "" then nm else result.name,
          packageScopeExports := setAssoc result.packageScopeExports nm exps }
    | none => result
  pure result

mutual

/-- Depth-first pre-order node enumeration: the visit order of the
`traverse(source, { enter })` walk. -/
def preorder (node : Node) : List Node :=
  match node with
  | .identifier name => [.identifier name]
  | .stringLiteral v => [.stringLiteral v]
  | .numericLiteral v => [.numericLiteral v]
  | .objectExpression ps => .objectExpression ps :: preorderList ps
  | .objectProperty k v => .objectProperty k v :: (preorder k ++ preorder v)
  | .objectMethod k => .objectMethod k :: preorder k
  | .spreadElement => [.spreadElement]
  | .memberExpression o p => .memberExpression o p :: (preorder o ++ preorder p)
  | .callExpression c args => .callExpression c args :: (preorder c ++ preorderList args)
  | .functionExpression body => .functionExpression body :: preorderList body
  | .expressionStatement e => .expressionStatement e :: preorder e
  | .unaryExpression op a => .unaryExpression op a :: preorder a
  | .variableDeclarator i init =>
      .variableDeclarator i init :: (preorder i ++ preorderOpt init)
  | .program body => .program body :: preorderList body
  | .other => [.other]
termination_by structural node

/-- Pre-order enumeration of a child list. -/
def preorderList (nodes : List Node) : List Node :=
  match nodes with
  | [] => []
  | n :: rest => preorder n ++ preorderList rest
termination_by structural nodes

/-- Pre-order enumeration of an optional child. -/
def preorderOpt (node? : Option Node) : List Node :=
  match node? with
  | none => []
  | some n => preorder n
termination_by structural node?

end

/-- The visitor run over a list of nodes, threading the accumulator and
propagating the first raised error. -/
def runEnter (result : ParsedPackage) (nodes : List Node) : Except ParseError ParsedPackage :=
  match nodes with
  | [] => pure result
  | n :: rest => do runEnter (← enterNode result n) rest

/-- `parseSource(code)` minus the external text parser: traverses every
node of the (already parsed) tree in visit order, starting from the empty
accumulator. -/
def parseSource (source : Node) : Except ParseError ParsedPackage :=
  runEnter initialResult (preorder source)

/-- Errors observable from `parseMeteorPackage`: its own `ParserError`
(with message) or a propagated JavaScript `TypeError`. -/
inductive PackageError where
  | parserError (message : String)
  | jsTypeError
deriving Repr, DecidableEq

/-- The post-traversal validation of `parseMeteorPackage` (lines 43-56):
a missing name, then an empty extraction result, each raise a
`ParserError`. -/
def validateResult (result : ParsedPackage) (filePath : String) :
    Except PackageError ParsedPackage :=
  if result.name = "" then
    .error (.parserError ("Could not extract name from package in: " ++ filePath))
  else if result.modules.isEmpty && result.packageScopeExports.isEmpty then
    .error (.parserError
      ("No modules or package-scope exports could be extracted from package: " ++ result.name))
  else
    .ok result

/-- `parseMeteorPackage` minus file I/O and timing: parse the tree, wrap a
`ModuleExportsError` into the generic `ParserError`, propagate a
`TypeError` unchanged, then validate.  (The source finally wraps the
validated record in a `MeteorPackage`; the record itself is returned
here.) -/
def parseMeteorPackage (source : Node) (filePath : String) :
    Except PackageError ParsedPackage :=
  match parseSource source with
  | .error (.moduleExportsError _ _) =>
      .error (.parserError "Failed to parse source code. See previous error.")
  | .error .jsTypeError => .error .jsTypeError
  | .ok result => validateResult result filePath

/-! ### Specification-side descriptions

The following definitions restate, independently of the extraction code,
what a well-formed installer module tree looks like and which slash-joined
paths its leaves occupy.  They are compared with the extractor's output. -/

/-- Does the statement-body of this leaf survive export extraction
without an error? -/
def exportsOk (body : List Node) : Bool :=
  match collectModuleExports body with
  | .ok _ => true
  | .error _ => false

mutual

/-- A well-formed module-tree property: a string-literal key whose value
is either a nested object literal of well-formed properties (a
subdirectory) or a function expression whose body extracts cleanly (a
leaf module). -/
def validModuleProp : Node → Bool
  | .objectProperty (.stringLiteral _) (.objectExpression ps) => validModuleProps ps
  | .objectProperty (.stringLiteral _) (.functionExpression body) => exportsOk body
  | _ => false
termination_by structural n => n

/-- All properties of a module-tree level are well-formed. -/
def validModuleProps : List Node → Bool
  | [] => true
  | p :: rest => validModuleProp p && validModuleProps rest
termination_by structural ps => ps

end

mutual

/-- The slash-joined paths of the leaf modules below one property, in
source order: a subdirectory key extends the prefix with `key + "/"`, a
leaf finalizes the path as `prefix + key`. -/
def propLeafPaths (parentPath : String) : Node → List String
  | .objectProperty (.stringLiteral k) (.objectExpression ps) =>
      propsLeafPaths (parentPath ++ k ++ "/") ps
  | .objectProperty (.stringLiteral k) (.functionExpression _) => [parentPath ++ k]
  | _ => []
termination_by structural n => n

/-- The slash-joined leaf paths below a property list, in source order. -/
def propsLeafPaths (parentPath : String) : List Node → List String
  | [] => []
  | p :: rest => propLeafPaths parentPath p ++ propsLeafPaths parentPath rest
termination_by structural ps => ps

end

/-- Spec-side key of an object-literal property (identifier or
string-literal key of a plain property or method), when it has one. -/
def propKey? : Node → Option String
  | .objectProperty (.identifier n) _ => some n
  | .objectProperty (.stringLiteral v) _ => some v
  | .objectMethod (.identifier n) => some n
  | .objectMethod (.stringLiteral v) => some v
  | _ => none

/-- Outer shape matched by `parseMeteorInstall`: a call whose callee is
the identifier `meteorInstall`. -/
def isMeteorInstallCall : Node → Bool
  | .callExpression (.identifier "meteorInstall") _ => true
  | _ => false

/-- Outer shape matched by `parsePackageScope`: a call whose callee is
the member expression `Package._define`. -/
def isPackageDefineCall : Node → Bool
  | .callExpression (.memberExpression (.identifier "Package") (.identifier "_define")) _ => true
  | _ => false

/-- Is this node an object literal? -/
def isObjectExpressionNode : Node → Bool
  | .objectExpression _ => true
  | _ => false

/-- The per-node effect of one `enter` visit on the accumulated `name`
(a projection of `enterNode`): an installer match overwrites the name with
its package key unconditionally, after which a package-scope match fills
the name only when it is still empty. -/
def nameUpdate (acc : String) (n : Node) : String :=
  let acc1 :=
    match parseMeteorInstall n with
    | .ok (some (nm, _)) => nm
    | _ => acc
  match parsePackageScope n with
  | .ok (some (nm, _)) => if acc1 = "" then nm else acc1
  | _ => acc1

/-! ### Helper lemmas -/

theorem except_pure_eq {ε α : Type} (a : α) : (pure a : Except ε α) = .ok a := rfl

theorem except_bind_ok {ε α β : Type} (a : α) (f : α → Except ε β) :
    ((Except.ok a : Except ε α) >>= f) = f a := rfl

theorem except_bind_err {ε α β : Type} (e : ε) (f : α → Except ε β) :
    ((Except.error e : Except ε α) >>= f) = .error e := rfl

theorem setAssoc_of_not_mem {α : Type} (m : List (String × α)) (k : String) (v : α)
    (h : k ∉ m.map Prod.fst) : setAssoc m k v = m ++ [(k, v)] := by
  have hfalse : (m.any fun p => decide (p.1 = k)) = false := by
    rw [List.any_eq_false]
    intro p hp
    simp only [decide_eq_true_eq]
    intro hpk
    exact h (List.mem_map.mpr ⟨p, hp, hpk⟩)
  simp [setAssoc, hfalse]

theorem setAssoc_lookup {α : Type} (m : List (String × α)) (k : String) (v : α) :
    (setAssoc m k v).lookup k = some v := by
  unfold setAssoc
  by_cases hany : (m.any fun p => decide (p.1 = k)) = true
  · rw [if_pos hany]
    induction m with
    | nil => simp at hany
    | cons p rest ih =>
        obtain ⟨pk, pv⟩ := p
        simp only [List.any_cons, Bool.or_eq_true, decide_eq_true_eq] at hany
        by_cases hpk : pk = k
        · simp [if_pos, hpk, List.lookup_cons]
        · have hrest : (rest.any fun p => decide (p.1 = k)) = true := by
            rcases hany with h' | h'
            · exact absurd h' hpk
            · exact h'
          have hne : (k == pk) = false := by
            simp [Ne.symm hpk]
          simp only [List.map_cons]
          rw [if_neg (by simpa using hpk)]
          rw [List.lookup_cons]
          simp only [hne]
          exact ih hrest
  · rw [if_neg hany]
    simp only [Bool.not_eq_true, List.any_eq_false] at hany
    induction m with
    | nil => simp [List.lookup_cons]
    | cons p rest ih =>
        obtain ⟨pk, pv⟩ := p
        have hne : (k == pk) = false := by
          have h1 := hany (pk, pv) (by simp)
          have h2 : ¬(pk = k) := by simpa using h1
          exact beq_eq_false_iff_ne.mpr (fun h3 => h2 h3.symm)
        rw [List.cons_append, List.lookup_cons]
        simp only [hne]
        exact ih (fun q hq => hany q (by simp [hq]))

/-- Inversion of a well-formed module-tree property. -/
theorem validModuleProp_inv {p : Node} (h : validModuleProp p = true) :
    (∃ k ps, p = .objectProperty (.stringLiteral k) (.objectExpression ps) ∧
        validModuleProps ps = true) ∨
    (∃ k body, p = .objectProperty (.stringLiteral k) (.functionExpression body) ∧
        exportsOk body = true) := by
  unfold validModuleProp at h
  split at h
  · exact Or.inl ⟨_, _, rfl, h⟩
  · exact Or.inr ⟨_, _, rfl, h⟩
  · exact absurd h (by simp)

mutual

/-- A well-formed property whose pending leaf paths are fresh and
duplicate-free extends the accumulated module record by exactly those
paths, in order. -/
theorem traverseModule_valid (modules : ModuleList) (property : Node) (parentPath : String)
    (hv : validModuleProp property = true)
    (hnd : (modules.map Prod.fst ++ propLeafPaths parentPath property).Nodup) :
    ∃ mods, traverseModule modules property parentPath = .ok mods ∧
      mods.map Prod.fst = modules.map Prod.fst ++ propLeafPaths parentPath property := by
  rcases validModuleProp_inv hv with ⟨k, ps, hsub, hps⟩ | ⟨k, body, hsub, hbody⟩ <;> subst hsub
  · have hnd' : (modules.map Prod.fst ++ propsLeafPaths (parentPath ++ k ++ "/") ps).Nodup := by
      simpa [propLeafPaths] using hnd
    obtain ⟨mods, hrun, hkeys⟩ :=
      traverseModules_valid modules ps (parentPath ++ k ++ "/") hps hnd'
    exact ⟨mods, by simpa [traverseModule, keyToString] using hrun,
      by simpa [propLeafPaths] using hkeys⟩
  · obtain ⟨l, hl⟩ : ∃ l, collectModuleExports body = .ok l := by
      unfold exportsOk at hbody
      split at hbody
      · exact ⟨_, by assumption⟩
      · exact absurd hbody (by simp)
    have hpath : parentPath ++ k ∉ modules.map Prod.fst := by
      simp only [propLeafPaths] at hnd
      have := (List.nodup_append.mp hnd).2.2
      intro hmem
      exact this hmem (by simp)
    refine ⟨modules ++ [(parentPath ++ k, l)], ?_, ?_⟩
    · rw [traverseModule]
      simp only [keyToString, hl, except_bind_ok, except_pure_eq]
      rw [setAssoc_of_not_mem _ _ _ hpath]
    · simp [propLeafPaths]
termination_by sizeOf property

/-- Well-formed properties with fresh, duplicate-free leaf paths extend
the accumulated module record by exactly those paths, in order. -/
theorem traverseModules_valid (modules : ModuleList) (properties : List Node) (parentPath : String)
    (hv : validModuleProps properties = true)
    (hnd : (modules.map Prod.fst ++ propsLeafPaths parentPath properties).Nodup) :
    ∃ mods, traverseModules modules properties parentPath = .ok mods ∧
      mods.map Prod.fst = modules.map Prod.fst ++ propsLeafPaths parentPath properties := by
  match properties with
  | [] => exact ⟨modules, by simp [traverseModules, propsLeafPaths, except_pure_eq]⟩
  | p :: rest =>
      rw [validModuleProps, Bool.and_eq_true] at hv
      have hnd1 : (modules.map Prod.fst ++ propLeafPaths parentPath p).Nodup := by
        refine List.Nodup.sublist ?_ hnd
        rw [propsLeafPaths, ← List.append_assoc]
        exact (List.sublist_append_left _ _)
      obtain ⟨mods1, hrun1, hkeys1⟩ := traverseModule_valid modules p parentPath hv.1 hnd1
      have hnd2 : (mods1.map Prod.fst ++ propsLeafPaths parentPath rest).Nodup := by
        rw [hkeys1, List.append_assoc]
        simpa [propsLeafPaths] using hnd
      obtain ⟨mods2, hrun2, hkeys2⟩ :=
        traverseModules_valid mods1 rest parentPath hv.2 hnd2
      refine ⟨mods2, ?_, ?_⟩
      · rw [traverseModules]
        simp only [hrun1, except_bind_ok]
        exact hrun2
      · rw [hkeys2, hkeys1, List.append_assoc, propsLeafPaths]
termination_by sizeOf properties

end

/-- `List.mapM` into `Except`, looked up at one index: success of the whole
map yields, at every index of the input, a successful image at the same
index of the output. -/
theorem mapM_ok_get {α β ε : Type} (f : α → Except ε β) :
    ∀ (xs : List α) (ys : List β), xs.mapM f = .ok ys →
      ∀ (i : Nat) (x : α), xs[i]? = some x → ∃ y, ys[i]? = some y ∧ f x = .ok y := by
  intro xs
  induction xs with
  | nil => intro ys _ i x hx; simp at hx
  | cons a rest ih =>
      intro ys hys i x hx
      rw [List.mapM_cons] at hys
      cases hfa : f a with
      | error e => rw [hfa] at hys; simp [except_bind_err] at hys
      | ok y0 =>
          rw [hfa] at hys
          cases hrest : rest.mapM f with
          | error e =>
              rw [hrest] at hys; simp [except_bind_ok, except_bind_err] at hys
          | ok ys0 =>
              rw [hrest] at hys
              simp only [except_bind_ok, except_pure_eq, Except.ok.injEq] at hys
              subst hys
              cases i with
              | zero =>
                  simp only [List.getElem?_cons_zero, Option.some.injEq] at hx
                  subst hx
                  exact ⟨y0, by simp, hfa⟩
              | succ j =>
                  simp only [List.getElem?_cons_succ] at hx
                  obtain ⟨y, hy, hfy⟩ := ih ys0 hrest j x hx
                  exact ⟨y, by simpa using hy, hfy⟩

/-- Computation of `formatExport` on a link binding property whose value
is a string literal. -/
theorem formatExport_property_string (k : Node) (v n pn : String) (oid : Option Nat)
    (hk : getKey (.objectProperty k (.stringLiteral v)) = .ok n) :
    formatExport (some pn) oid (.objectProperty k (.stringLiteral v))
      = .ok { name := n, type := .reExport, id := oid, «from» := some pn,
              as := if v = n then none else some v } := by
  have hred : formatExport (some pn) oid (.objectProperty k (.stringLiteral v))
      = (getKey (.objectProperty k (.stringLiteral v))) >>= fun name =>
          if v ≠ name then
            pure { name := name, type := .reExport, id := oid, «from» := some pn,
                   as := some v }
          else
            pure { name := name, type := .reExport, id := oid, «from» := some pn } := rfl
  rw [hred, hk, except_bind_ok]
  by_cases h : v = n
  · rw [if_neg (by simpa using h)]
    simp [except_pure_eq, h]
  · rw [if_pos h]
    simp [except_pure_eq, h]

/-- C3: for every `module.link` call binding property whose value is a
string literal, the extracted record at the same index is a re-export
whose `name` is the property key; `as` is absent when the string equals
the key and equals the string otherwise. -/
theorem link_string_binding_as_roundtrip
    (m fromPath : String) (props : List Node) (idv : Nat) (i : Nat)
    (k : Node) (v n : String) (l : List ModuleExport)
    (hm : matchModuleName m = true)
    (hp : props[i]? = some (.objectProperty k (.stringLiteral v)))
    (hk : getKey (.objectProperty k (.stringLiteral v)) = .ok n)
    (hl : readModuleExports (.expressionStatement (.callExpression
        (.memberExpression (.identifier m) (.identifier "link"))
        [.stringLiteral fromPath, .objectExpression props, .numericLiteral idv]))
      = .ok (some l)) :
    l[i]? = some { name := n, type := .reExport, id := some idv,
                   «from» := some fromPath, as := if v = n then none else some v } := by
  have hcall : readModuleExports (.expressionStatement (.callExpression
        (.memberExpression (.identifier m) (.identifier "link"))
        [.stringLiteral fromPath, .objectExpression props, .numericLiteral idv]))
      = if !matchModuleName m then pure none
        else (formatExports props (some fromPath) (some idv)) >>= fun l' =>
          pure (some l') := rfl
  rw [hcall, hm] at hl
  simp only [Bool.not_true, Bool.false_eq_true, if_false] at hl
  have hfe : formatExports props (some fromPath) (some idv) = .ok l := by
    cases hfe0 : formatExports props (some fromPath) (some idv) with
    | error e => rw [hfe0, except_bind_err] at hl; exact absurd hl (by simp)
    | ok l0 =>
        rw [hfe0, except_bind_ok, except_pure_eq] at hl
        simp only [Except.ok.injEq, Option.some.injEq] at hl
        rw [hl]
  obtain ⟨y, hy, hfx⟩ := mapM_ok_get _ props l hfe i _ hp
  rw [formatExport_property_string k v n fromPath (some idv) hk] at hfx
  simp only [Except.ok.injEq] at hfx
  rw [hy, hfx]

/-- C4: a `module.link` binding property given as an object method (the
binding-accessor form) always produces a global-binding record, never a
re-export, whatever its name. -/
theorem link_objectMethod_globalBinding (k : Node) (n pn : String) (oid : Option Nat)
    (hk : getKey (.objectMethod k) = .ok n) :
    formatExport (some pn) oid (.objectMethod k)
      = .ok { name := n, type := .globalBinding, id := oid, «from» := some pn,
              as := none } := by
  have hred : formatExport (some pn) oid (.objectMethod k)
      = (getKey (.objectMethod k)) >>= fun name =>
          pure { name := name, type := .globalBinding, id := oid, «from» := some pn } := rfl
  rw [hred, hk, except_bind_ok, except_pure_eq]

/-- Witness for C3 at a concrete link binding (`Mongo: "MongoDB"`). -/
theorem link_string_binding_as_roundtrip_witness :
    matchModuleName "module1" = true ∧
    ([{ name := "Mongo", type := ExportType.reExport, id := some 2,
        «from» := some "meteor/mongo", as := some "MongoDB" }] : List ModuleExport)[0]?
      = some { name := "Mongo", type := .reExport, id := some 2,
               «from» := some "meteor/mongo",
               as := if "MongoDB" = "Mongo" then none else some "MongoDB" } := by
  refine ⟨by decide, ?_⟩
  exact link_string_binding_as_roundtrip "module1" "meteor/mongo"
    [.objectProperty (.identifier "Mongo") (.stringLiteral "MongoDB")] 2 0
    (.identifier "Mongo") "MongoDB" "Mongo" _ (by decide) rfl rfl rfl

/-- Witness for C4 at a concrete method-form binding (`Meteor() {...}`). -/
theorem link_objectMethod_globalBinding_witness :
    getKey (.objectMethod (.identifier "Meteor")) = .ok "Meteor" ∧
    formatExport (some "meteor/meteor") (some 0) (.objectMethod (.identifier "Meteor"))
      = .ok { name := "Meteor", type := .globalBinding, id := some 0,
              «from» := some "meteor/meteor", as := none } :=
  ⟨rfl, link_objectMethod_globalBinding (.identifier "Meteor") "Meteor" "meteor/meteor"
    (some 0) rfl⟩

/-- One step of the statement-list accumulation when the head statement
yields records. -/
theorem collectModuleExports_cons_some {s : Node} {l : List ModuleExport}
    {rest : List Node} {lr : List ModuleExport}
    (hs : readModuleExports s = .ok (some l))
    (hr : collectModuleExports rest = .ok lr) :
    collectModuleExports (s :: rest) = .ok (l ++ lr) := by
  rw [collectModuleExports, hs, except_bind_ok, hr, except_bind_ok]
  rfl

/-- C7: a leaf whose function body carries export-producing statements in
source order `[s1, s2, s3]` gets exactly the concatenation of their
records, in that order, as its module entry; the same concatenation-in-
order holds for statements nested inside the negated-IIFE main-module
wrapper. -/
theorem module_exports_source_order
    (mods : ModuleList) (fname parentPath : String) (mprop : Node) (margs : List Node)
    (s1 s2 s3 : Node) (l1 l2 l3 : List ModuleExport)
    (h1 : readModuleExports s1 = .ok (some l1))
    (h2 : readModuleExports s2 = .ok (some l2))
    (h3 : readModuleExports s3 = .ok (some l3)) :
    traverseModule mods
        (.objectProperty (.stringLiteral fname) (.functionExpression [s1, s2, s3])) parentPath
      = .ok (setAssoc mods (parentPath ++ fname) (l1 ++ l2 ++ l3)) ∧
    handleMainModule (.unaryExpression "!" (.callExpression
        (.memberExpression (.functionExpression [s1, s2, s3]) mprop) margs))
      = .ok (some (l1 ++ l2 ++ l3)) := by
  have hnil : collectModuleExports [] = .ok [] := rfl
  have hc3 := collectModuleExports_cons_some h3 hnil
  have hc2 := collectModuleExports_cons_some h2 hc3
  have hc1 := collectModuleExports_cons_some h1 hc2
  have hcol : collectModuleExports [s1, s2, s3] = .ok (l1 ++ l2 ++ l3) := by
    rw [hc1]
    simp [List.append_assoc]
  constructor
  · have hred : traverseModule mods
        (.objectProperty (.stringLiteral fname) (.functionExpression [s1, s2, s3])) parentPath
        = (collectModuleExports [s1, s2, s3]) >>= fun exportList =>
            pure (setAssoc mods (parentPath ++ fname) exportList) := rfl
    rw [hred, hcol, except_bind_ok, except_pure_eq]
  · have hred : handleMainModule (.unaryExpression "!" (.callExpression
        (.memberExpression (.functionExpression [s1, s2, s3]) mprop) margs))
        = (collectModuleExports [s1, s2, s3]) >>= fun l => pure (some l) := rfl
    rw [hred, hcol, except_bind_ok, except_pure_eq]

/-- Witness for C7: three statements (a named export, a default export
and a link) in a leaf body and in a main-module wrapper. -/
theorem module_exports_source_order_witness :
    readModuleExports (.expressionStatement (.callExpression
        (.memberExpression (.identifier "module") (.identifier "export"))
        [.objectExpression [.objectProperty (.identifier "a") .other]]))
      = .ok (some [{ name := "a", type := .namedExport }]) ∧
    traverseModule []
        (.objectProperty (.stringLiteral "index.js") (.functionExpression
          [.expressionStatement (.callExpression
              (.memberExpression (.identifier "module") (.identifier "export"))
              [.objectExpression [.objectProperty (.identifier "a") .other]]),
           .expressionStatement (.callExpression
              (.memberExpression (.identifier "module") (.identifier "exportDefault"))
              [.identifier "b"]),
           .expressionStatement (.callExpression
              (.memberExpression (.identifier "module") (.identifier "link"))
              [.stringLiteral "./c", .objectExpression
                [.objectProperty (.identifier "c") (.stringLiteral "c")],
               .numericLiteral 0])])) ""
      = .ok (setAssoc [] ("" ++ "index.js")
          ([{ name := "a", type := .namedExport }]
            ++ [{ name := "b", type := .exportDefault }]
            ++ [{ name := "c", type := .reExport, id := some 0, «from» := some "./c" }])) := by
  refine ⟨rfl, ?_⟩
  exact (module_exports_source_order [] "index.js" "" .other []
    (.expressionStatement (.callExpression
        (.memberExpression (.identifier "module") (.identifier "export"))
        [.objectExpression [.objectProperty (.identifier "a") .other]]))
    (.expressionStatement (.callExpression
        (.memberExpression (.identifier "module") (.identifier "exportDefault"))
        [.identifier "b"]))
    (.expressionStatement (.callExpression
        (.memberExpression (.identifier "module") (.identifier "link"))
        [.stringLiteral "./c", .objectExpression
          [.objectProperty (.identifier "c") (.stringLiteral "c")],
         .numericLiteral 0]))
    [{ name := "a", type := .namedExport }]
    [{ name := "b", type := .exportDefault }]
    [{ name := "c", type := .reExport, id := some 0, «from» := some "./c" }]
    rfl rfl rfl).1

/-- C1: for a valid installer call (fixed `node_modules`/`meteor`/package
prefix, well-formed module tree, duplicate-free leaf paths), the extracted
modules record has exactly one entry per leaf module, keyed in source
order by the slash-joined path from the package root to that leaf; no key
is duplicated (by the path hypothesis) and no leaf is dropped. -/
theorem installer_modules_keys_are_leaf_paths
    (pkgName : String) (props : List Node)
    (hv : validModuleProps props = true)
    (hnd : (propsLeafPaths "" props).Nodup) :
    (parseMeteorInstall (.callExpression (.identifier "meteorInstall")
        [.objectExpression [.objectProperty (.stringLiteral "node_modules")
          (.objectExpression [.objectProperty (.stringLiteral "meteor")
            (.objectExpression [.objectProperty (.stringLiteral pkgName)
              (.objectExpression props)])])]])).map
        (Option.map (fun r => (r.1, r.2.map Prod.fst)))
      = .ok (some (pkgName, propsLeafPaths "" props)) := by
  obtain ⟨mods, hrun, hkeys⟩ := traverseModules_valid [] props "" hv (by simpa using hnd)
  have hred : parseMeteorInstall (.callExpression (.identifier "meteorInstall")
        [.objectExpression [.objectProperty (.stringLiteral "node_modules")
          (.objectExpression [.objectProperty (.stringLiteral "meteor")
            (.objectExpression [.objectProperty (.stringLiteral pkgName)
              (.objectExpression props)])])]])
      = (traverseModules [] props "") >>= fun modules => pure (some (pkgName, modules)) := rfl
  rw [hred, hrun, except_bind_ok, except_pure_eq]
  simp only [List.map_nil, List.nil_append] at hkeys
  simp [Except.map, Option.map, hkeys]

/-- Witness for C1: a two-leaf tree with one nested subdirectory. -/
theorem installer_modules_keys_are_leaf_paths_witness :
    (parseMeteorInstall (.callExpression (.identifier "meteorInstall")
        [.objectExpression [.objectProperty (.stringLiteral "node_modules")
          (.objectExpression [.objectProperty (.stringLiteral "meteor")
            (.objectExpression [.objectProperty (.stringLiteral "pkg:demo")
              (.objectExpression
                [.objectProperty (.stringLiteral "index.js") (.functionExpression []),
                 .objectProperty (.stringLiteral "subdir")
                   (.objectExpression [.objectProperty (.stringLiteral "inner.js")
                      (.functionExpression [])])])])])]])).map
        (Option.map (fun r => (r.1, r.2.map Prod.fst)))
      = .ok (some ("pkg:demo", ["index.js", "subdir/inner.js"])) := by
  have h := installer_modules_keys_are_leaf_paths "pkg:demo"
    [.objectProperty (.stringLiteral "index.js") (.functionExpression []),
     .objectProperty (.stringLiteral "subdir")
       (.objectExpression [.objectProperty (.stringLiteral "inner.js")
          (.functionExpression [])])]
    (by rfl) (by decide)
  exact h.trans (by rfl)

/-- When every property has a plain (identifier or string-literal) key,
`packageScopeKeys` succeeds with exactly those keys. -/
theorem propKey?_getKey {p : Node} {k : String} (h : propKey? p = some k) :
    getKey p = .ok k := by
  unfold propKey? at h
  split at h
  all_goals simp_all [getKey, except_pure_eq]

theorem packageScopeKeys_of_mapM (props : List Node) (ks : List String)
    (h : props.mapM propKey? = some ks) : packageScopeKeys props = .ok ks := by
  induction props generalizing ks with
  | nil =>
      simp only [List.mapM_nil, pure, Option.some.injEq] at h
      subst h
      rfl
  | cons p rest ih =>
      rw [List.mapM_cons] at h
      cases hp : propKey? p with
      | none => rw [hp] at h; simp at h
      | some k0 =>
          rw [hp] at h
          cases hr : rest.mapM propKey? with
          | none => rw [hr] at h; simp at h
          | some ks0 =>
              rw [hr] at h
              have h2 : (some (k0 :: ks0) : Option (List String)) = some ks := h
              injection h2 with h3
              subst h3
              have hg : getKey p = .ok k0 := propKey?_getKey hp
              have hred : packageScopeKeys (p :: rest)
                  = (getKey p) >>= fun k => (packageScopeKeys rest) >>= fun kl =>
                      pure (k :: kl) := by
                cases p
                case spreadElement => simp [propKey?] at hp
                all_goals rfl
              rw [hred, hg, except_bind_ok, ih ks0 hr, except_bind_ok, except_pure_eq]

/-- C5: processing a two-argument `Package._define` call whose second
argument is an object literal records the literal's property keys under
the package name in `packageScopeExports` (looking the name up yields
exactly those keys) and leaves `modules` unchanged (the record update
touches only `name` and `packageScopeExports`). -/
theorem define_two_args_legacy_scope
    (r : ParsedPackage) (pname : String) (props : List Node) (ks : List String)
    (hk : props.mapM propKey? = some ks) :
    enterNode r (.callExpression
        (.memberExpression (.identifier "Package") (.identifier "_define"))
        [.stringLiteral pname, .objectExpression props])
      = .ok { r with
              name := if r.name = "" then pname else r.name,
              packageScopeExports := setAssoc r.packageScopeExports pname ks } ∧
    (setAssoc r.packageScopeExports pname ks).lookup pname = some ks := by
  refine ⟨?_, setAssoc_lookup _ _ _⟩
  have hps : parsePackageScope (.callExpression
        (.memberExpression (.identifier "Package") (.identifier "_define"))
        [.stringLiteral pname, .objectExpression props])
      = (packageScopeKeys props) >>= fun kl => pure (some (pname, kl)) := rfl
  have hps2 : parsePackageScope (.callExpression
        (.memberExpression (.identifier "Package") (.identifier "_define"))
        [.stringLiteral pname, .objectExpression props]) = .ok (some (pname, ks)) := by
    rw [hps, packageScopeKeys_of_mapM props ks hk, except_bind_ok, except_pure_eq]
  unfold enterNode
  rw [hps2, except_bind_ok]
  rfl

/-- Witness for C5 at a concrete legacy `_define` call. -/
theorem define_two_args_legacy_scope_witness :
    ([.objectProperty (.identifier "Cookies") .other,
      .objectMethod (.stringLiteral "setCookie")] : List Node).mapM propKey?
      = some ["Cookies", "setCookie"] ∧
    enterNode initialResult (.callExpression
        (.memberExpression (.identifier "Package") (.identifier "_define"))
        [.stringLiteral "ostrio:cookies",
         .objectExpression [.objectProperty (.identifier "Cookies") .other,
           .objectMethod (.stringLiteral "setCookie")]])
      = .ok { initialResult with
              name := if initialResult.name = "" then "ostrio:cookies" else initialResult.name,
              packageScopeExports := setAssoc initialResult.packageScopeExports
                "ostrio:cookies" ["Cookies", "setCookie"] } := by
  refine ⟨rfl, ?_⟩
  exact (define_two_args_legacy_scope initialResult "ostrio:cookies"
    [.objectProperty (.identifier "Cookies") .other,
     .objectMethod (.stringLiteral "setCookie")]
    ["Cookies", "setCookie"] rfl).1

/-- C6: a `Package._define` call whose third argument is present but is
not an object literal raises the typed `ModuleExportsError` carrying that
argument node, both from the recognizer itself and from the whole visit
step (so the extraction aborts). -/
theorem define_bad_third_arg_fails
    (r : ParsedPackage) (a0 a1 a2 : Node)
    (h : isObjectExpressionNode a2 = false) :
    parsePackageScope (.callExpression
        (.memberExpression (.identifier "Package") (.identifier "_define"))
        [a0, a1, a2])
      = .error (.moduleExportsError
          "Unexpected type received for package-scope exports argument!" a2) ∧
    enterNode r (.callExpression
        (.memberExpression (.identifier "Package") (.identifier "_define"))
        [a0, a1, a2])
      = .error (.moduleExportsError
          "Unexpected type received for package-scope exports argument!" a2) := by
  have hps : parsePackageScope (.callExpression
        (.memberExpression (.identifier "Package") (.identifier "_define"))
        [a0, a1, a2])
      = .error (.moduleExportsError
          "Unexpected type received for package-scope exports argument!" a2) := by
    cases a2
    case objectExpression ps => simp [isObjectExpressionNode] at h
    all_goals rfl
  refine ⟨hps, ?_⟩
  unfold enterNode
  rw [hps, except_bind_err]

/-- Witness for C6: a `_define` whose third argument is an identifier. -/
theorem define_bad_third_arg_fails_witness :
    isObjectExpressionNode (.identifier "runtimeExports") = false ∧
    enterNode initialResult (.callExpression
        (.memberExpression (.identifier "Package") (.identifier "_define"))
        [.stringLiteral "ddp", .other, .identifier "runtimeExports"])
      = .error (.moduleExportsError
          "Unexpected type received for package-scope exports argument!"
          (.identifier "runtimeExports")) := by
  refine ⟨rfl, ?_⟩
  exact (define_bad_third_arg_fails initialResult (.stringLiteral "ddp") .other
    (.identifier "runtimeExports") rfl).2

/-- A node that is not a `meteorInstall` call is ignored by
`parseMeteorInstall`. -/
theorem parseMeteorInstall_not_match {n : Node}
    (h : isMeteorInstallCall n = false) : parseMeteorInstall n = .ok none := by
  unfold parseMeteorInstall
  split
  · simp [isMeteorInstallCall] at h
  · rfl

/-- A node that is not a `Package._define` call is ignored by
`parsePackageScope`. -/
theorem parsePackageScope_not_match {n : Node}
    (h : isPackageDefineCall n = false) : parsePackageScope n = .ok none := by
  unfold parsePackageScope
  split
  · simp [isPackageDefineCall] at h
  · rfl

/-- Visiting a node that matches neither call recognizer can only move
the main-module path. -/
theorem enterNode_benign (r : ParsedPackage) (n : Node)
    (h1 : isMeteorInstallCall n = false) (h2 : isPackageDefineCall n = false) :
    enterNode r n = .ok (match readMainModulePath n with
      | some p => if p = "" then r else { r with mainModulePath := p }
      | none => r) := by
  unfold enterNode
  rw [parsePackageScope_not_match h2, parseMeteorInstall_not_match h1]
  rfl

/-- Running the visitor over recognizer-free nodes only ever moves the
main-module path. -/
theorem runEnter_benign (nodes : List Node) (r : ParsedPackage)
    (h : ∀ n ∈ nodes, isMeteorInstallCall n = false ∧ isPackageDefineCall n = false) :
    ∃ mp, runEnter r nodes = .ok { r with mainModulePath := mp } := by
  induction nodes generalizing r with
  | nil => exact ⟨r.mainModulePath, rfl⟩
  | cons n rest ih =>
      obtain ⟨h1, h2⟩ := h n (by simp)
      rw [runEnter, enterNode_benign r n h1 h2, except_bind_ok]
      have hrest : ∀ m ∈ rest, isMeteorInstallCall m = false ∧ isPackageDefineCall m = false :=
        fun m hm => h m (by simp [hm])
      cases hm : readMainModulePath n with
      | none => simpa using ih r hrest
      | some p =>
          show ∃ mp, runEnter (if p = "" then r else { r with mainModulePath := p }) rest
              = .ok { r with mainModulePath := mp }
          by_cases hp : p = ""
          · rw [if_pos hp]
            simpa using ih r hrest
          · rw [if_neg hp]
            obtain ⟨mp, hmp⟩ := ih { r with mainModulePath := p } hrest
            exact ⟨mp, hmp⟩

/-- C2 (amended): a tree containing neither a `meteorInstall` call nor a
`Package._define` call fails extraction, but with the Missing-Name Defect
(`Could not extract name from package in: <path>`) rather than the
Empty-Result Defect: the name check precedes the empty-result check and
no name can have been set. -/
theorem no_recognized_calls_missing_name (prog : Node) (fp : String)
    (h : ∀ n ∈ preorder prog,
        isMeteorInstallCall n = false ∧ isPackageDefineCall n = false) :
    parseMeteorPackage prog fp
      = .error (.parserError ("Could not extract name from package in: " ++ fp)) := by
  obtain ⟨mp, hmp⟩ := runEnter_benign (preorder prog) initialResult h
  unfold parseMeteorPackage parseSource
  rw [hmp]
  rfl

/-- Witness for the amended C2 at a program with one unrelated call. -/
theorem no_recognized_calls_missing_name_witness :
    (∀ n ∈ preorder (.program [.expressionStatement
        (.callExpression (.identifier "require") [.stringLiteral "./x"])]),
      isMeteorInstallCall n = false ∧ isPackageDefineCall n = false) ∧
    parseMeteorPackage (.program [.expressionStatement
        (.callExpression (.identifier "require") [.stringLiteral "./x"])]) "pkg.js"
      = .error (.parserError ("Could not extract name from package in: " ++ "pkg.js")) := by
  refine ⟨by decide, ?_⟩
  exact no_recognized_calls_missing_name (.program [.expressionStatement
    (.callExpression (.identifier "require") [.stringLiteral "./x"])]) "pkg.js" (by decide)

/-- Counterexample to C2 as stated: the empty program contains neither
recognized call, yet extraction raises the Missing-Name Defect, not the
Empty-Result Defect. -/
theorem empty_program_raises_missing_name_not_empty_result :
    parseMeteorPackage (.program []) "pkg.js"
      = .error (.parserError "Could not extract name from package in: pkg.js") ∧
    parseMeteorPackage (.program []) "pkg.js"
      ≠ .error (.parserError
          "No modules or package-scope exports could be extracted from package: ") := by
  refine ⟨rfl, fun h => ?_⟩
  rw [show parseMeteorPackage (.program []) "pkg.js"
      = .error (.parserError "Could not extract name from package in: pkg.js") from rfl] at h
  injection h with h3
  injection h3 with h4
  exact absurd h4 (by decide)

/-- A successful visit changes `mainModulePath` exactly as the
main-module-path recognizer dictates: a nonempty match overwrites, an
empty or absent match keeps the previous value. -/
theorem enterNode_ok_mainModulePath {r r1 : ParsedPackage} {n : Node}
    (h : enterNode r n = .ok r1) :
    r1.mainModulePath = (match readMainModulePath n with
      | some p => if p = "" then r.mainModulePath else p
      | none => r.mainModulePath) := by
  unfold enterNode at h
  cases hps : parsePackageScope n with
  | error e => rw [hps, except_bind_err] at h; exact absurd h (by simp)
  | ok ps =>
      rw [hps, except_bind_ok] at h
      cases hmi : parseMeteorInstall n with
      | error e => rw [hmi, except_bind_err] at h; exact absurd h (by simp)
      | ok mi =>
          rw [hmi, except_bind_ok, except_pure_eq] at h
          injection h with h
          subst h
          rcases mi with _ | ⟨nm, mods⟩ <;> rcases ps with _ | ⟨pn, pex⟩ <;>
            cases readMainModulePath n <;>
              simp <;> split_ifs <;> simp

/-- A successful visit changes `name` exactly as `nameUpdate` dictates. -/
theorem enterNode_ok_name {r r1 : ParsedPackage} {n : Node}
    (h : enterNode r n = .ok r1) : r1.name = nameUpdate r.name n := by
  unfold enterNode at h
  unfold nameUpdate
  cases hps : parsePackageScope n with
  | error e => rw [hps, except_bind_err] at h; exact absurd h (by simp)
  | ok ps =>
      rw [hps, except_bind_ok] at h
      cases hmi : parseMeteorInstall n with
      | error e => rw [hmi, except_bind_err] at h; exact absurd h (by simp)
      | ok mi =>
          rw [hmi, except_bind_ok, except_pure_eq] at h
          injection h with h
          subst h
          rcases mi with _ | ⟨nm, mods⟩ <;> rcases ps with _ | ⟨pn, pex⟩ <;>
            cases readMainModulePath n <;>
              simp <;> split_ifs <;> simp

/-- Over a successful run, `mainModulePath` ends as the last nonempty
string among the visited main-module-path matches (or the starting value
when there is none). -/
theorem runEnter_ok_mainModulePath (nodes : List Node) (r r' : ParsedPackage)
    (h : runEnter r nodes = .ok r') :
    r'.mainModulePath
      = (((nodes.filterMap readMainModulePath).filter
          (fun s => s ≠ "")).getLastD r.mainModulePath) := by
  induction nodes generalizing r with
  | nil =>
      have h2 : (Except.ok r : Except ParseError ParsedPackage) = .ok r' := h
      injection h2 with h3
      subst h3
      rfl
  | cons n rest ih =>
      rw [runEnter] at h
      cases he : enterNode r n with
      | error e => rw [he, except_bind_err] at h; exact absurd h (by simp)
      | ok r1 =>
          rw [he, except_bind_ok] at h
          have hmp := enterNode_ok_mainModulePath he
          have hrec := ih r1 h
          rw [List.filterMap_cons]
          cases hrm : readMainModulePath n with
          | none =>
              rw [hrm] at hmp
              have hmp2 : r1.mainModulePath = r.mainModulePath := hmp
              rw [hrec, hmp2]
          | some p =>
              rw [hrm] at hmp
              have hmp2 : r1.mainModulePath = if p = "" then r.mainModulePath else p := hmp
              show r'.mainModulePath
                = (List.filter (fun s => decide (s ≠ ""))
                    (p :: List.filterMap readMainModulePath rest)).getLastD r.mainModulePath
              by_cases hp : p = ""
              · rw [List.filter_cons, if_neg (by simp [hp])]
                rw [hrec, hmp2, if_pos hp]
              · rw [List.filter_cons, if_pos (by simp [hp]), List.getLastD_cons,
                  hrec, hmp2, if_neg hp]

/-- C8 (amended): after a successful traversal, `mainModulePath` equals
the last *nonempty* string literal among the `exports = require(...)`
declarators in visit order; an empty string literal is falsy and leaves
the previous value in place, and the duplication itself never raises an
error. -/
theorem mainModulePath_last_nonempty_wins (prog : Node) (r : ParsedPackage)
    (h : parseSource prog = .ok r) :
    r.mainModulePath
      = (((preorder prog).filterMap readMainModulePath).filter
          (fun s => s ≠ "")).getLastD "" := by
  have h2 := runEnter_ok_mainModulePath (preorder prog) initialResult r h
  simpa [initialResult] using h2

/-- Witness for the amended C8: four `exports = require(...)`
declarators, the nonempty last one winning over earlier and empty ones. -/
theorem mainModulePath_last_nonempty_wins_witness :
    parseSource (.program
      [.variableDeclarator (.identifier "exports")
        (some (.callExpression (.identifier "require") [.stringLiteral "a.js"])),
       .variableDeclarator (.identifier "exports")
        (some (.callExpression (.identifier "require") [.stringLiteral ""])),
       .variableDeclarator (.identifier "exports")
        (some (.callExpression (.identifier "require") [.stringLiteral "b.js"]))])
      = .ok { name := "", modules := [], packageScopeExports := [],
              mainModulePath := "b.js" } ∧
    ({ name := "", modules := [], packageScopeExports := [],
       mainModulePath := "b.js" } : ParsedPackage).mainModulePath
      = (((preorder (.program
          [.variableDeclarator (.identifier "exports")
            (some (.callExpression (.identifier "require") [.stringLiteral "a.js"])),
           .variableDeclarator (.identifier "exports")
            (some (.callExpression (.identifier "require") [.stringLiteral ""])),
           .variableDeclarator (.identifier "exports")
            (some (.callExpression (.identifier "require") [.stringLiteral "b.js"]))])).filterMap
            readMainModulePath).filter (fun s => s ≠ "")).getLastD "" := by
  refine ⟨rfl, ?_⟩
  exact mainModulePath_last_nonempty_wins _ _ rfl

/-- Counterexample to C8 as stated: with a final `exports = require("")`
declarator, the last declaration does not win; the earlier nonempty path
is kept. -/
theorem mainModulePath_empty_last_counterexample :
    (parseSource (.program
      [.variableDeclarator (.identifier "exports")
        (some (.callExpression (.identifier "require") [.stringLiteral "a.js"])),
       .variableDeclarator (.identifier "exports")
        (some (.callExpression (.identifier "require") [.stringLiteral ""]))])).map
      (fun r => r.mainModulePath) = .ok "a.js" ∧
    (parseSource (.program
      [.variableDeclarator (.identifier "exports")
        (some (.callExpression (.identifier "require") [.stringLiteral "a.js"])),
       .variableDeclarator (.identifier "exports")
        (some (.callExpression (.identifier "require") [.stringLiteral ""]))])).map
      (fun r => r.mainModulePath) ≠ .ok "" := by
  refine ⟨rfl, fun h => ?_⟩
  rw [show (parseSource (.program
      [.variableDeclarator (.identifier "exports")
        (some (.callExpression (.identifier "require") [.stringLiteral "a.js"])),
       .variableDeclarator (.identifier "exports")
        (some (.callExpression (.identifier "require") [.stringLiteral ""]))])).map
      (fun r => r.mainModulePath) = .ok "a.js" from rfl] at h
  injection h with h3
  exact absurd h3 (by decide)

/-- Over a successful run, `name` is the left fold of the per-node name
update over the visited nodes. -/
theorem runEnter_ok_name (nodes : List Node) (r r' : ParsedPackage)
    (h : runEnter r nodes = .ok r') :
    r'.name = nodes.foldl nameUpdate r.name := by
  induction nodes generalizing r with
  | nil =>
      have h2 : (Except.ok r : Except ParseError ParsedPackage) = .ok r' := h
      injection h2 with h3
      subst h3
      rfl
  | cons n rest ih =>
      rw [runEnter] at h
      cases he : enterNode r n with
      | error e => rw [he, except_bind_err] at h; exact absurd h (by simp)
      | ok r1 =>
          rw [he, except_bind_ok] at h
          rw [List.foldl_cons, ← enterNode_ok_name he]
          exact ih r1 h

/-- C9 (amended): after a successful traversal, the final `name` is the
left fold, over the visited nodes in order, of the name-update rule: an
installer match overwrites the name with its package key unconditionally
(even with an empty key), while a `_define` match sets the name only when
it is still empty.  Hence a nonempty installer key is final, among
`_define` calls alone the first nonempty name is kept, but an empty
installer key can still be replaced by a later `_define`. -/
theorem package_name_fold_characterization (prog : Node) (r : ParsedPackage)
    (h : parseSource prog = .ok r) :
    r.name = (preorder prog).foldl nameUpdate "" := by
  have h2 := runEnter_ok_name (preorder prog) initialResult r h
  simpa [initialResult] using h2

/-- Witness for the amended C9: an installer call named `pkg:demo`
followed by a `_define` call named `foo`; the installer name is final. -/
theorem package_name_fold_characterization_witness :
    parseSource (.program
      [.expressionStatement (.callExpression (.identifier "meteorInstall")
        [.objectExpression [.objectProperty (.stringLiteral "node_modules")
          (.objectExpression [.objectProperty (.stringLiteral "meteor")
            (.objectExpression [.objectProperty (.stringLiteral "pkg:demo")
              (.objectExpression [])])])]]),
       .expressionStatement (.callExpression
        (.memberExpression (.identifier "Package") (.identifier "_define"))
        [.stringLiteral "foo", .objectExpression []])])
      = .ok { name := "pkg:demo", modules := [],
              packageScopeExports := [("foo", [])], mainModulePath := "" } ∧
    ({ name := "pkg:demo", modules := [],
       packageScopeExports := [("foo", [])], mainModulePath := "" } : ParsedPackage).name
      = ((preorder (.program
          [.expressionStatement (.callExpression (.identifier "meteorInstall")
            [.objectExpression [.objectProperty (.stringLiteral "node_modules")
              (.objectExpression [.objectProperty (.stringLiteral "meteor")
                (.objectExpression [.objectProperty (.stringLiteral "pkg:demo")
                  (.objectExpression [])])])]]),
           .expressionStatement (.callExpression
            (.memberExpression (.identifier "Package") (.identifier "_define"))
            [.stringLiteral "foo", .objectExpression []])])).foldl nameUpdate "") := by
  refine ⟨rfl, ?_⟩
  exact package_name_fold_characterization _ _ rfl

/-- Counterexample to C9 as stated: an installer call whose package key
is the empty string followed by a `_define` call named `foo`; the final
name is `foo`, not the installer's key. -/
theorem installer_empty_key_overwritten_counterexample :
    (parseSource (.program
      [.expressionStatement (.callExpression (.identifier "meteorInstall")
        [.objectExpression [.objectProperty (.stringLiteral "node_modules")
          (.objectExpression [.objectProperty (.stringLiteral "meteor")
            (.objectExpression [.objectProperty (.stringLiteral "")
              (.objectExpression [])])])]]),
       .expressionStatement (.callExpression
        (.memberExpression (.identifier "Package") (.identifier "_define"))
        [.stringLiteral "foo", .objectExpression []])])).map (fun r => r.name)
      = .ok "foo" ∧
    (parseSource (.program
      [.expressionStatement (.callExpression (.identifier "meteorInstall")
        [.objectExpression [.objectProperty (.stringLiteral "node_modules")
          (.objectExpression [.objectProperty (.stringLiteral "meteor")
            (.objectExpression [.objectProperty (.stringLiteral "")
              (.objectExpression [])])])]]),
       .expressionStatement (.callExpression
        (.memberExpression (.identifier "Package") (.identifier "_define"))
        [.stringLiteral "foo", .objectExpression []])])).map (fun r => r.name)
      ≠ .ok "" := by
  refine ⟨rfl, fun h => ?_⟩
  rw [show (parseSource (.program
      [.expressionStatement (.callExpression (.identifier "meteorInstall")
        [.objectExpression [.objectProperty (.stringLiteral "node_modules")
          (.objectExpression [.objectProperty (.stringLiteral "meteor")
            (.objectExpression [.objectProperty (.stringLiteral "")
              (.objectExpression [])])])]]),
       .expressionStatement (.callExpression
        (.memberExpression (.identifier "Package") (.identifier "_define"))
        [.stringLiteral "foo", .objectExpression []])])).map (fun r => r.name)
      = .ok "foo" from rfl] at h
  injection h with h3
  exact absurd h3 (by decide)

/-- A body whose statements all carry no export semantics collects to the
empty record list. -/
theorem collectModuleExports_none (body : List Node)
    (h : ∀ s ∈ body, readModuleExports s = .ok none) :
    collectModuleExports body = .ok [] := by
  induction body with
  | nil => rfl
  | cons s rest ih =>
      rw [collectModuleExports, h s (by simp), except_bind_ok,
        ih (fun t ht => h t (by simp [ht])), except_bind_ok]
      rfl

/-- C10: a leaf module whose body has no recognizable export, link or
default-export statement still creates an entry for its path with an
empty record list, and a result containing only such an entry (with a
nonempty name) passes post-traversal validation: no Empty-Result Defect
is raised. -/
theorem empty_leaf_entry_passes_validation
    (mods : ModuleList) (fname parentPath : String) (body : List Node)
    (nm path mp fp : String)
    (hb : ∀ s ∈ body, readModuleExports s = .ok none)
    (hnm : nm ≠ "") :
    traverseModule mods
        (.objectProperty (.stringLiteral fname) (.functionExpression body)) parentPath
      = .ok (setAssoc mods (parentPath ++ fname) []) ∧
    validateResult { name := nm, modules := [(path, [])], packageScopeExports := [],
                     mainModulePath := mp } fp
      = .ok { name := nm, modules := [(path, [])], packageScopeExports := [],
              mainModulePath := mp } := by
  constructor
  · have hred : traverseModule mods
        (.objectProperty (.stringLiteral fname) (.functionExpression body)) parentPath
        = (collectModuleExports body) >>= fun exportList =>
            pure (setAssoc mods (parentPath ++ fname) exportList) := rfl
    rw [hred, collectModuleExports_none body hb, except_bind_ok, except_pure_eq]
  · unfold validateResult
    rw [if_neg hnm]
    rfl

/-- Witness for C10: a leaf `empty.js` whose body is a lone plumbing
statement, and validation of the resulting single-entry record. -/
theorem empty_leaf_entry_passes_validation_witness :
    (∀ s ∈ ([.expressionStatement .other] : List Node),
      readModuleExports s = .ok none) ∧
    traverseModule []
        (.objectProperty (.stringLiteral "empty.js")
          (.functionExpression [.expressionStatement .other])) ""
      = .ok (setAssoc [] ("" ++ "empty.js") []) ∧
    validateResult { name := "pkg:demo", modules := [("empty.js", [])],
                     packageScopeExports := [], mainModulePath := "" } "pkg.js"
      = .ok { name := "pkg:demo", modules := [("empty.js", [])],
              packageScopeExports := [], mainModulePath := "" } := by
  have hb : ∀ s ∈ ([.expressionStatement .other] : List Node),
      readModuleExports s = .ok none := by
    intro s hs
    rw [List.mem_singleton] at hs
    subst hs
    rfl
  have h := empty_leaf_entry_passes_validation [] "empty.js" ""
    [.expressionStatement .other] "pkg:demo" "empty.js" "" "pkg.js" hb (by decide)
  exact ⟨hb, h.1, h.2⟩
